import Mathlib

/-!
# Verification of the `namedconf` lossless concrete-syntax parser/serializer

A shallow embedding of the Go package `namedconf` (files `parser.go`,
`editing.go`, `writer.go`, plus the node model and writer of the package's
main file).  Source bytes are modelled as `List Nat` (each element a byte
value 0..255); Go strings, being byte sequences, are modelled the same way.
Go `int` loop indices are `Nat`; the brace-depth counter is `Int` because
the Go code guards `depth--` with `depth > 0` and the invariant `depth ≥ 0`
is one of the claims.

Every Go `for` loop is embedded as a function that is structurally
recursive on an explicit `fuel` argument, with the loop's real exit
condition checked inside; the public wrappers supply fuel that is shown (or
trivially seen) to be sufficient.  This keeps every definition executable
by kernel reduction (`rfl`/`decide`) on concrete inputs.
-/

namespace Namedconf

/-- Byte list of an ASCII string literal (all examples in this file are
ASCII, where a `Char` code point is exactly the byte). -/
def strBytes (s : String) : List Nat := s.data.map Char.toNat

/-- Byte at index `i`, `0` when out of range.  All faithful uses read
inside the scanned range, where the Go code indexes `src[i]` directly. -/
def byteAt (src : List Nat) (i : Nat) : Nat := src.getD i 0

/-- The half-open byte range `src[a:b]` (Go slicing). -/
def extract (src : List Nat) (a b : Nat) : List Nat := (src.drop a).take (b - a)

/-- `isSpace` from parser.go: space, tab, newline, carriage return, form feed. -/
def isSpace (b : Nat) : Bool := b == 32 || b == 9 || b == 10 || b == 13 || b == 12

/-- `unicode.IsSpace (rune b)` for a byte `b` (parser.go calls this in
`firstIdent`): ASCII `\t\n\v\f\r `, plus U+0085 and U+00A0, the only
code points below 256 that Unicode classes as white space. -/
def unicodeIsSpaceByte (b : Nat) : Bool :=
  b == 9 || b == 10 || b == 11 || b == 12 || b == 13 || b == 32 || b == 133 || b == 160

/-- `strings.ToLower`, byte-wise ASCII case mapping.  This is exactly Go's
behaviour on ASCII input (Go's ASCII fast path); the Unicode case table
for multi-byte runes is not modelled. -/
def asciiToLower (s : List Nat) : List Nat :=
  s.map (fun b => if 65 ≤ b ∧ b ≤ 90 then b + 32 else b)

/-- `bytes.LastIndexByte`: index of the last occurrence of `c`, if any. -/
def lastIndexByte (l : List Nat) (c : Nat) : Option Nat :=
  match l with
  | [] => none
  | b :: rest =>
    match lastIndexByte rest c with
    | some j => some (j + 1)
    | none => if b == c then some 0 else none

/-- `trimRightSpace` from parser.go: drop trailing `isSpace` bytes. -/
def trimRightSpace (s : List Nat) : List Nat :=
  (s.reverse.dropWhile isSpace).reverse

/-! ## Scanner primitive

Both `parseRange` and `buildStmt` drive the identical character-class
state machine: line comment (`//` or `#` … `\n`), block comment
(`/* … */`), double-quoted string with `\` escapes, and a brace-depth
counter touched only in the Normal context. -/

/-- Scanner context: brace depth plus the three mutually exclusive
comment/string flags of parser.go. -/
structure ScanState where
  depth : Int
  inSlashStar : Bool
  inLine : Bool
  inString : Bool

/-- The all-clear starting state (`depth := 0`, every flag false). -/
def ScanState.init : ScanState := ⟨0, false, false, false⟩

/-- One iteration of the shared scan loop of `parseRange` / `buildStmt`:
given the cursor `i` (with `i < endIdx`), consume one or two bytes and
return the next cursor and state.  Mirrors the Go branch order; the
statement-boundary action of `parseRange` (which fires on `;` in Normal
context at depth 0 and changes neither state nor stride) is observed
separately by `isBoundary`. -/
def scanStep (src : List Nat) (endIdx i : Nat) (st : ScanState) : Nat × ScanState :=
  let c := byteAt src i
  if st.inLine then
    if c = 10 then (i + 1, { st with inLine := false }) else (i + 1, st)
  else if st.inSlashStar then
    if c = 42 ∧ i + 1 < endIdx ∧ byteAt src (i + 1) = 47 then
      (i + 2, { st with inSlashStar := false })
    else (i + 1, st)
  else if st.inString then
    if c = 92 then
      if i + 1 < endIdx then (i + 2, st) else (i + 1, st)
    else if c = 34 then (i + 1, { st with inString := false })
    else (i + 1, st)
  else if c = 47 ∧ i + 1 < endIdx ∧ byteAt src (i + 1) = 42 then
    (i + 2, { st with inSlashStar := true })
  else if c = 47 ∧ i + 1 < endIdx ∧ byteAt src (i + 1) = 47 then
    (i + 2, { st with inLine := true })
  else if c = 35 then (i + 1, { st with inLine := true })
  else if c = 34 then (i + 1, { st with inString := true })
  else if c = 123 then (i + 1, { st with depth := st.depth + 1 })
  else if c = 125 then
    (i + 1, { st with depth := if st.depth > 0 then st.depth - 1 else st.depth })
  else (i + 1, st)

/-- `parseRange`'s statement-boundary test: a `;` byte in Normal context
(no comment/string flag set) at brace depth 0. -/
def isBoundary (src : List Nat) (i : Nat) (st : ScanState) : Bool :=
  !st.inLine && !st.inSlashStar && !st.inString && st.depth == 0 && byteAt src i == 59

/-- Fueled scan loop: the next index `≥ i` (and `< endIdx`) at which
`isBoundary` holds, advancing by `scanStep`. -/
def scanNextF : Nat → List Nat → Nat → Nat → ScanState → Option Nat
  | 0, _, _, _, _ => none
  | fuel + 1, src, endIdx, i, st =>
    if i < endIdx then
      if isBoundary src i st then some i
      else
        let p := scanStep src endIdx i st
        scanNextF fuel src endIdx p.1 p.2
    else none

/-- Next top-level-semicolon boundary at or after `i`; fuel `endIdx - i`
suffices because every `scanStep` advances the cursor. -/
def scanNext (src : List Nat) (endIdx i : Nat) (st : ScanState) : Option Nat :=
  scanNextF (endIdx - i) src endIdx i st

/-! ## `firstIdent` (keyword extraction) -/

/-- Go loop `for j < len(s) && s[j] != '\n' { j++ }`. -/
def scanToNLF : Nat → List Nat → Nat → Nat
  | 0, _, j => j
  | fuel + 1, s, j =>
    if j < s.length ∧ byteAt s j ≠ 10 then scanToNLF fuel s (j + 1) else j

/-- First index `≥ j` holding a newline, else `s.length`. -/
def scanToNL (s : List Nat) (j : Nat) : Nat := scanToNLF (s.length - j) s j

/-- Go loop `for j+1 < len(s) && !(s[j] == '*' && s[j+1] == '/') { j++ }`. -/
def scanToStarSlashF : Nat → List Nat → Nat → Nat
  | 0, _, j => j
  | fuel + 1, s, j =>
    if j + 1 < s.length ∧ ¬(byteAt s j = 42 ∧ byteAt s (j + 1) = 47) then
      scanToStarSlashF fuel s (j + 1)
    else j

/-- Start index of a `*/` closer at or after `j` (or where the scan gave up). -/
def scanToStarSlash (s : List Nat) (j : Nat) : Nat := scanToStarSlashF (s.length - j) s j

/-- The leading skip loop of `firstIdent`: advance past Unicode whitespace
bytes and `#`, `//`, `/* */` comments.  Each iteration strictly increases
the cursor, so fuel `s.length + 1` suffices. -/
def firstIdentSkipF : Nat → List Nat → Nat → Nat
  | 0, _, i => i
  | fuel + 1, s, i =>
    if i < s.length then
      if unicodeIsSpaceByte (byteAt s i) then firstIdentSkipF fuel s (i + 1)
      else if byteAt s i = 35 then firstIdentSkipF fuel s (scanToNL s (i + 1) + 1)
      else if byteAt s i = 47 ∧ i + 1 < s.length ∧ byteAt s (i + 1) = 47 then
        firstIdentSkipF fuel s (scanToNL s (i + 2) + 1)
      else if byteAt s i = 47 ∧ i + 1 < s.length ∧ byteAt s (i + 1) = 42 then
        let j := scanToStarSlash s (i + 2)
        firstIdentSkipF fuel s (if j + 1 < s.length then j + 2 else j)
      else i
    else i

/-- Cursor after skipping leading whitespace/comments in `firstIdent`. -/
def firstIdentSkip (s : List Nat) : Nat := firstIdentSkipF (s.length + 1) s 0

/-- The token-collection loop of `firstIdent`: advance until `isSpace`,
`{` or `;` (note: the *parser's* `isSpace`, which excludes `\v`). -/
def collectEndF : Nat → List Nat → Nat → Nat
  | 0, _, i => i
  | fuel + 1, s, i =>
    if i < s.length ∧ ¬(isSpace (byteAt s i) = true ∨ byteAt s i = 123 ∨ byteAt s i = 59) then
      collectEndF fuel s (i + 1)
    else i

/-- End of the collected token starting at `i`. -/
def collectEnd (s : List Nat) (i : Nat) : Nat := collectEndF (s.length - i) s i

/-- Go's ASCII space set used by `strings.TrimSpace`: `\t\n\v\f\r` and space. -/
def isAsciiSpace (b : Nat) : Bool :=
  b == 9 || b == 10 || b == 11 || b == 12 || b == 13 || b == 32

/-- `strings.TrimSpace` (ASCII fast path, which is exact for ASCII data;
multi-byte encoded Unicode spaces at the boundaries are not modelled). -/
def trimSpaceAscii (s : List Nat) : List Nat :=
  ((s.dropWhile isAsciiSpace).reverse.dropWhile isAsciiSpace).reverse

/-- `strings.Trim tok "\""`: drop every leading and trailing `"` byte. -/
def trimQuotes (s : List Nat) : List Nat :=
  ((s.dropWhile (· == 34)).reverse.dropWhile (· == 34)).reverse

/-- `firstIdent` from parser.go: skip leading whitespace and comments,
collect until space/`{`/`;`, trim surrounding whitespace and quotes.
(Go slices `s[start:i]`; `extract` is the total version of that slice.) -/
def firstIdent (s : List Nat) : List Nat :=
  let start := firstIdentSkip s
  let i := collectEnd s start
  trimQuotes (trimSpaceAscii (extract s start i))

/-- The parser's keyword computation `strings.ToLower(firstIdent(headRaw))`. -/
def keywordOf (headRaw : List Nat) : List Nat := asciiToLower (firstIdent headRaw)

/-! ## Node model -/

/-- The fields of a `Stmt`, generic in the body type so that the statement
node can be nested inside `Node` (`Stmt = StmtG (List Node)`). -/
structure StmtG (β : Type) where
  RawText : List Nat
  startI : Nat
  endI : Nat
  Keyword : List Nat
  HeadRaw : List Nat
  HasBlock : Bool
  LBraceRaw : List Nat
  Body : β
  RBraceRaw : List Nat
  TrailingAfterR : List Nat
  Modified : Bool

/-- A concrete-syntax node: `Raw` trivia or a statement. -/
inductive Node where
  | raw (Text : List Nat) (startI endI : Nat)
  | stmt (s : StmtG (List Node))

/-- `Stmt` from the package: statement fields with recursively parsed body. -/
abbrev Stmt := StmtG (List Node)

/-- A parsed file: its ordered top-level nodes. -/
structure File where
  Nodes : List Node

/-! ## Writer -/

/-- `bytes.Split(bs, "\n")`: the (possibly empty) chunks between newlines. -/
def splitNL : List Nat → List (List Nat)
  | [] => [[]]
  | c :: rest =>
    if c = 10 then [] :: splitNL rest
    else
      match splitNL rest with
      | [] => [[c]]
      | l :: ls => (c :: l) :: ls

/-- The indentation loop of `Stmt.writeTo`: every line except the last gets
`"  " ++ line ++ "\n"`; the last line gets `"  " ++ line` only if non-empty. -/
def indentJoin : List (List Nat) → List Nat
  | [] => []
  | [l] => if l.isEmpty then [] else 32 :: 32 :: l
  | l :: ls => 32 :: 32 :: (l ++ 10 :: indentJoin ls)

/-- Indent a body node's serialized bytes by two spaces per line. -/
def indentLines (bs : List Nat) : List Nat := indentJoin (splitNL bs)

/-- The "ensure trailing newline before `}`" padding of `Stmt.writeTo`: the
Go code inspects the write buffer's last byte, which at that point is the
last byte of the indented body output `w`, or the `\n` emitted after `{`
when `w` is empty. -/
def padNL (w : List Nat) : List Nat :=
  match w.getLast? with
  | some c => if c = 10 then [] else [10]
  | none => []

mutual

/-- `Node.writeTo`: `Raw` emits its text; statements use `writeStmt`. -/
def writeNode : Node → List Nat
  | .raw t _ _ => t
  | .stmt s => writeStmt s

/-- `Stmt.writeTo`: verbatim `RawText` when unmodified (and `RawText`
non-empty), else regenerate with minimal stable formatting. -/
def writeStmt : Stmt → List Nat
  | s =>
    if s.Modified = false ∧ s.RawText ≠ [] then s.RawText
    else if s.HasBlock = false then
      if s.HeadRaw = [] then s.RawText
      else trimRightSpace s.HeadRaw ++ [59]
    else
      let head := trimRightSpace s.HeadRaw
      let head := if head = [] then s.Keyword else head
      let bodyOut :=
        if s.Body.isEmpty then []
        else
          let w := writeBody s.Body
          10 :: (w ++ padNL w)
      head ++ [32, 123] ++ bodyOut ++ [125, 59]

/-- The body loop of `Stmt.writeTo`: each node is serialized and indented. -/
def writeBody : List Node → List Nat
  | [] => []
  | n :: rest => indentLines (writeNode n) ++ writeBody rest

end

/-- `File.Bytes` / `File.WriteTo`: concatenate the nodes' output. -/
def writeNodes : List Node → List Nat
  | [] => []
  | n :: rest => writeNode n ++ writeNodes rest

/-- Serialized bytes of a file. -/
def File.Bytes (f : File) : List Nat := writeNodes f.Nodes

/-! ## Parser

`parseRange` splits `src[start:endIdx]` into `Raw`/`Stmt` nodes at
top-level semicolons, and `buildStmt` decomposes one statement segment,
recursively parsing its block body with `parseRange`.  To embed the mutual
recursion as a single fuel-structural function, `buildStmt` is split into
`buildStmtCore` — everything except the recursive body parse, recording
the body's absolute byte range instead — and the body fill-in, which
`parseRangeF` performs inline (and `buildStmt` reassembles). -/

/-- `findStmtStart` from parser.go: first non-`isSpace` index in
`[last, pos)`, else `pos` — the statement start after trivia. -/
def findStmtStartF : Nat → List Nat → Nat → Nat → Nat
  | 0, _, i, _ => i
  | fuel + 1, src, i, pos =>
    if i < pos ∧ isSpace (byteAt src i) then findStmtStartF fuel src (i + 1) pos else i

/-- Wrapper supplying sufficient fuel `pos - last`. -/
def findStmtStart (src : List Nat) (last pos : Nat) : Nat :=
  findStmtStartF (pos - last) src last pos

/-- The brace-locating scan of `buildStmt`: the same `scanStep` machine,
additionally recording `braceOpen` (first `{` at depth 0 in Normal
context) and `braceClose` (the `}` whose processing returns the depth to 0
afterwards, once `braceOpen` is set). -/
def braceScanF : Nat → List Nat → Nat → Nat → ScanState → Option Nat → Option Nat →
    Option Nat × Option Nat
  | 0, _, _, _, _, bo, bc => (bo, bc)
  | fuel + 1, src, endIdx, i, st, bo, bc =>
    if i < endIdx then
      let c := byteAt src i
      let normal := !st.inLine && !st.inSlashStar && !st.inString
      let p := scanStep src endIdx i st
      let bo' := if normal = true ∧ c = 123 ∧ st.depth = 0 ∧ bo = none then some i else bo
      let bc' :=
        if normal = true ∧ c = 125 ∧ p.2.depth = 0 ∧ bo.isSome = true ∧ bc = none then some i
        else bc
      braceScanF fuel src endIdx p.1 p.2 bo' bc'
    else (bo, bc)

/-- Scan a whole statement segment for its top-level brace pair. -/
def braceScan (seg : List Nat) : Option Nat × Option Nat :=
  braceScanF seg.length seg seg.length 0 ScanState.init none none

/-- The whitespace-absorption loops of `buildStmt` (`lbEnd`, `rbEnd`):
advance while the byte is `isSpace` and the cursor is below `bound`.
(The Go `lbEnd` loop also checks `lbEnd < len(seg)`; that is subsumed
because `byteAt` yields 0 — not a space — past the end.) -/
def skipSpacesLTF : Nat → List Nat → Nat → Nat → Nat
  | 0, _, i, _ => i
  | fuel + 1, s, i, bound =>
    if i < bound ∧ isSpace (byteAt s i) then skipSpacesLTF fuel s (i + 1) bound else i

/-- Wrapper supplying sufficient fuel `bound - i`. -/
def skipSpacesLT (s : List Nat) (i bound : Nat) : Nat := skipSpacesLTF (bound - i) s i bound

/-- The fields `buildStmt` computes, with the recursive body parse
replaced by the body's absolute byte range (`none` when there is no block
or the body is empty). -/
structure StmtCore where
  RawText : List Nat
  startI : Nat
  endI : Nat
  Keyword : List Nat
  HeadRaw : List Nat
  HasBlock : Bool
  LBraceRaw : List Nat
  bodyRange : Option (Nat × Nat)
  RBraceRaw : List Nat
  TrailingAfterR : List Nat

/-- The non-block branch of `buildStmt`: head is everything before the
final semicolon, the brace/trailing fields keep their zero values. -/
def simpleStmtCore (seg : List Nat) (segStart semi : Nat) : StmtCore :=
  { RawText := seg, startI := segStart, endI := segStart + seg.length,
    Keyword := keywordOf (seg.take semi), HeadRaw := seg.take semi,
    HasBlock := false, LBraceRaw := [], bodyRange := none,
    RBraceRaw := [], TrailingAfterR := [] }

/-- `buildStmt` from parser.go minus the recursive body parse.  The Go
function takes the slice `seg = src[segStart:segEnd]` plus the absolute
offset `segStart`; its local indices into `seg` appear here unchanged.
Returns `none` exactly on Go's only error, `"statement missing semicolon"`. -/
def buildStmtCore (src : List Nat) (segStart segEnd : Nat) : Option StmtCore :=
  let seg := extract src segStart segEnd
  let braces := braceScan seg
  match lastIndexByte seg 59 with
  | none => none
  | some semi =>
    match braces with
    | (some bo, some bc) =>
      if bo < bc then
        let lbEnd := skipSpacesLT seg (bo + 1) bc
        let rbEnd := skipSpacesLT seg (bc + 1) semi
        some { RawText := seg, startI := segStart, endI := segStart + seg.length,
               Keyword := keywordOf (seg.take bo), HeadRaw := seg.take bo,
               HasBlock := true, LBraceRaw := extract seg bo lbEnd,
               bodyRange := if lbEnd < bc then some (segStart + lbEnd, segStart + bc) else none,
               RBraceRaw := extract seg bc rbEnd,
               TrailingAfterR := extract seg rbEnd semi }
      else some (simpleStmtCore seg segStart semi)
    | _ => some (simpleStmtCore seg segStart semi)

/-- Assemble the `Stmt` node from its scanned fields and parsed body;
parsing always leaves `Modified = false`. -/
def mkStmt (core : StmtCore) (body : List Node) : Stmt :=
  { RawText := core.RawText, startI := core.startI, endI := core.endI,
    Keyword := core.Keyword, HeadRaw := core.HeadRaw, HasBlock := core.HasBlock,
    LBraceRaw := core.LBraceRaw, Body := body, RBraceRaw := core.RBraceRaw,
    TrailingAfterR := core.TrailingAfterR, Modified := false }

/-- `parseRange` from parser.go, structurally recursive on fuel.  One
recursion step handles one top-level semicolon boundary: emit the `Raw`
trivia before the statement start (if non-empty), the statement node —
degraded to `Raw` over the same bytes when the decomposer fails — and
continue after the semicolon.  Restarting the scan at `b + 1` with
`ScanState.init` is exact: at a boundary every flag is false and the
depth is 0.  With no boundary left, the remaining bytes become trailing
`Raw` trivia.  Fuel `endIdx - start + 1` suffices (each recursive call
strictly shrinks its range). -/
def parseRangeF : Nat → List Nat → Nat → Nat → List Node
  | 0, _, _, _ => []
  | fuel + 1, src, start, endIdx =>
    match scanNext src endIdx start ScanState.init with
    | none => if start < endIdx then [.raw (extract src start endIdx) start endIdx] else []
    | some b =>
      let stmtStart := findStmtStart src start b
      let node :=
        match buildStmtCore src stmtStart (b + 1) with
        | none => Node.raw (extract src stmtStart (b + 1)) stmtStart (b + 1)
        | some core =>
          Node.stmt (mkStmt core
            (match core.bodyRange with
             | none => []
             | some r => parseRangeF fuel src r.1 r.2))
      (if start < stmtStart then [Node.raw (extract src start stmtStart) start stmtStart] else []) ++
        node :: parseRangeF fuel src (b + 1) endIdx

/-- `buildStmt` from parser.go: the decomposed fields with the block body
recursively parsed (at the stated fuel). -/
def buildStmt (fuel : Nat) (src : List Nat) (segStart segEnd : Nat) : Option Stmt :=
  (buildStmtCore src segStart segEnd).map fun core =>
    mkStmt core
      (match core.bodyRange with
       | none => []
       | some r => parseRangeF fuel src r.1 r.2)

/-- The statement-or-fallback node `parseRange` emits for the segment
`[a, b)`: `buildStmt`'s statement on success, a `Raw` node over exactly
the same bytes when the decomposer fails. -/
def parseStmtNode (fuel : Nat) (src : List Nat) (a b : Nat) : Node :=
  match buildStmt fuel src a b with
  | none => Node.raw (extract src a b) a b
  | some st => Node.stmt st

/-- `Parse` from the package: split the whole buffer.  Go's signature
returns `(File, error)`; `parseRange` ends in `return nodes, nil`, so the
error is always absent — modelled by `Option`, always `some`. -/
def Parse (src : List Nat) : Option File :=
  some ⟨parseRangeF (src.length + 1) src 0 src.length⟩

/-! ## Editing helpers (editing.go) -/

/-- `MarkModified`: force regeneration on write. -/
def MarkModified (s : Stmt) : Stmt := { s with Modified := true }

/-- `ReplaceHead`: replace the raw head and mark modified. -/
def ReplaceHead (s : Stmt) (newHead : List Nat) : Stmt :=
  { s with HeadRaw := newHead, Modified := true }

/-- `AppendToBody`: upgrade a simple statement to a block statement in
place (default brace spacing, prior body/trailing discarded), then append
the node and mark modified. -/
def AppendToBody (s : Stmt) (n : Node) : Stmt :=
  let s :=
    if s.HasBlock = false then
      { s with HasBlock := true, LBraceRaw := [32, 123], RBraceRaw := [125],
               TrailingAfterR := [], Body := ([] : List Node) }
    else s
  { s with Body := s.Body ++ [n], Modified := true }

/-- `strings.TrimRight(head, "; \t\r\n")` in `NewSimpleStmt`. -/
def trimRightCutset (s : List Nat) : List Nat :=
  (s.reverse.dropWhile (fun b => b == 59 || b == 32 || b == 9 || b == 13 || b == 10)).reverse

/-- `NewSimpleStmt`: a fresh, always-modified simple statement. -/
def NewSimpleStmt (head : List Nat) : Stmt :=
  let head := trimRightCutset head
  { RawText := [], startI := 0, endI := 0, Keyword := keywordOf head, HeadRaw := head,
    HasBlock := false, LBraceRaw := [], Body := [], RBraceRaw := [], TrailingAfterR := [],
    Modified := true }

/-- A statement value with `Modified = false` but empty `RawText` and a
non-empty head: the writer's verbatim branch requires `RawText != ""`,
so this regenerates `"x;"` instead of emitting `RawText`. -/
def C7stmt : Stmt :=
  { RawText := [], startI := 0, endI := 0, Keyword := [120], HeadRaw := [120],
    HasBlock := false, LBraceRaw := [], Body := [], RBraceRaw := [],
    TrailingAfterR := [], Modified := false }

/-- The statement `Parse` produces for `recursion no;`. -/
def C8stmt : Stmt :=
  { RawText := strBytes "recursion no;", startI := 0, endI := 13,
    Keyword := strBytes "recursion", HeadRaw := strBytes "recursion no",
    HasBlock := false, LBraceRaw := [], Body := [], RBraceRaw := [],
    TrailingAfterR := [], Modified := false }

/-- A modified block statement whose `HeadRaw` is a single space (non-empty
but trimming to empty) while `Keyword` is `k`. -/
def C5stmt : Stmt :=
  { RawText := [], startI := 0, endI := 0, Keyword := [107], HeadRaw := [32],
    HasBlock := true, LBraceRaw := [], Body := [], RBraceRaw := [],
    TrailingAfterR := [], Modified := true }

/-- `NewBlockStmt`: a fresh, always-modified block statement. -/
def NewBlockStmt (head : List Nat) (body : List Node) : Stmt :=
  let head := trimSpaceAscii head
  { RawText := [], startI := 0, endI := 0, Keyword := keywordOf head, HeadRaw := head,
    HasBlock := true, LBraceRaw := [32, 123], Body := body, RBraceRaw := [125],
    TrailingAfterR := [], Modified := true }


/-! ## Infrastructure lemmas -/

theorem writeNodes_append (l1 l2 : List Node) :
    writeNodes (l1 ++ l2) = writeNodes l1 ++ writeNodes l2 := by
  induction l1 with
  | nil => simp [writeNodes]
  | cons n rest ih => simp [writeNodes, ih]

theorem extract_append {src : List Nat} {a m b : Nat} (h1 : a ≤ m) (h2 : m ≤ b) :
    extract src a m ++ extract src m b = extract src a b := by
  unfold extract
  have hb : b - a = (m - a) + (b - m) := by omega
  rw [hb, List.take_add]
  congr 2
  rw [List.drop_drop]
  congr 1
  omega

theorem extract_self {src : List Nat} {a b : Nat} (h : b ≤ a) : extract src a b = [] := by
  unfold extract
  have : b - a = 0 := by omega
  simp [this]

theorem extract_ne_nil {src : List Nat} {a b : Nat} (hab : a < b) (ha : a < src.length) :
    extract src a b ≠ [] := by
  unfold extract
  intro h
  have := congrArg List.length h
  simp [List.length_take, List.length_drop] at this
  omega

set_option maxHeartbeats 1600000 in
theorem scanStep_fst (src : List Nat) (e i : Nat) (st : ScanState) :
    (scanStep src e i st).1 = i + 1 ∨ (scanStep src e i st).1 = i + 2 := by
  unfold scanStep
  dsimp only
  split_ifs <;> simp

theorem scanStep_lt (src : List Nat) (e i : Nat) (st : ScanState) :
    i < (scanStep src e i st).1 := by
  rcases scanStep_fst src e i st with h | h <;> omega

theorem scanNextF_bounds :
    ∀ fuel (src : List Nat) (e i : Nat) (st : ScanState) (b : Nat),
      scanNextF fuel src e i st = some b → i ≤ b ∧ b < e := by
  intro fuel
  induction fuel with
  | zero => intro src e i st b h; simp [scanNextF] at h
  | succ f ih =>
    intro src e i st b h
    unfold scanNextF at h
    split at h
    · split at h
      · cases h
        exact ⟨le_refl _, by assumption⟩
      · have h2 := ih src e _ _ b h
        exact ⟨le_trans (le_of_lt (scanStep_lt src e i st)) h2.1, h2.2⟩
    · cases h

theorem scanNext_bounds {src : List Nat} {e i : Nat} {st : ScanState} {b : Nat}
    (h : scanNext src e i st = some b) : i ≤ b ∧ b < e :=
  scanNextF_bounds _ src e i st b h

theorem findStmtStartF_ge :
    ∀ fuel (src : List Nat) (i pos : Nat), i ≤ findStmtStartF fuel src i pos := by
  intro fuel
  induction fuel with
  | zero => intro src i pos; simp [findStmtStartF]
  | succ f ih =>
    intro src i pos
    unfold findStmtStartF
    split
    · exact le_trans (by omega) (ih src (i + 1) pos)
    · exact le_refl _

theorem findStmtStartF_le :
    ∀ fuel (src : List Nat) (i pos : Nat), i ≤ pos → findStmtStartF fuel src i pos ≤ pos := by
  intro fuel
  induction fuel with
  | zero => intro src i pos h; simpa [findStmtStartF] using h
  | succ f ih =>
    intro src i pos h
    unfold findStmtStartF
    split
    · exact ih src (i + 1) pos (by omega)
    · exact h

theorem findStmtStart_ge (src : List Nat) (last pos : Nat) :
    last ≤ findStmtStart src last pos := findStmtStartF_ge _ src last pos

theorem findStmtStart_le (src : List Nat) (last pos : Nat) (h : last ≤ pos) :
    findStmtStart src last pos ≤ pos := findStmtStartF_le _ src last pos h


theorem writeStmt_unmodified {s : Stmt} (h1 : s.Modified = false) (h2 : s.RawText ≠ []) :
    writeStmt s = s.RawText := by
  simp [writeStmt, h1, h2]

theorem buildStmtCore_some {src : List Nat} {a b : Nat} {c : StmtCore}
    (h : buildStmtCore src a b = some c) :
    c.RawText = extract src a b ∧ c.Keyword = keywordOf c.HeadRaw := by
  unfold buildStmtCore at h
  dsimp only at h
  split at h
  · exact absurd h (by simp)
  · split at h
    · split at h
      · cases h; exact ⟨rfl, rfl⟩
      · cases h; exact ⟨rfl, rfl⟩
    · cases h; exact ⟨rfl, rfl⟩

theorem mkStmt_Modified (core : StmtCore) (body : List Node) :
    (mkStmt core body).Modified = false := rfl

theorem parseRangeF_bytes :
    ∀ (fuel : Nat) (src : List Nat) (start endIdx : Nat),
      endIdx ≤ src.length → endIdx - start < fuel →
      writeNodes (parseRangeF fuel src start endIdx) = extract src start endIdx := by
  intro fuel
  induction fuel with
  | zero => intro src start endIdx _ h; omega
  | succ f ih =>
    intro src start endIdx hlen hfuel
    rw [parseRangeF]
    cases hscan : scanNext src endIdx start ScanState.init with
    | none =>
      by_cases hse : start < endIdx
      · simp [hse, writeNodes, writeNode]
      · have hx : extract src start endIdx = [] := extract_self (by omega)
        simp [hse, writeNodes, hx]
    | some b =>
      obtain ⟨hsb, hbe⟩ := scanNext_bounds hscan
      have hss1 : start ≤ findStmtStart src start b := findStmtStart_ge src start b
      have hss2 : findStmtStart src start b ≤ b := findStmtStart_le src start b hsb
      simp only [hscan]
      set ss := findStmtStart src start b with hssdef
      have hrest : writeNodes (parseRangeF f src (b + 1) endIdx) = extract src (b + 1) endIdx :=
        ih src (b + 1) endIdx hlen (by omega)
      have hnode :
          writeNode (match buildStmtCore src ss (b + 1) with
            | none => Node.raw (extract src ss (b + 1)) ss (b + 1)
            | some core =>
              Node.stmt (mkStmt core
                (match core.bodyRange with
                 | none => []
                 | some r => parseRangeF f src r.1 r.2))) = extract src ss (b + 1) := by
        cases hcore : buildStmtCore src ss (b + 1) with
        | none => simp [writeNode]
        | some core =>
          simp only [writeNode]
          rw [writeStmt_unmodified (mkStmt_Modified core _)]
          · show core.RawText = _
            exact (buildStmtCore_some hcore).1
          · show core.RawText ≠ []
            rw [(buildStmtCore_some hcore).1]
            exact extract_ne_nil (by omega) (by omega)
      by_cases hpre : start < ss
      · simp only [hpre, if_pos, writeNodes, writeNodes_append, hnode, hrest, writeNode,
          List.append_assoc, List.nil_append, List.append_nil]
        rw [extract_append (show ss ≤ b + 1 by omega) (show b + 1 ≤ endIdx by omega),
          extract_append (show start ≤ ss from hss1) (show ss ≤ endIdx by omega)]
      · have hsse : ss = start := by omega
        simp only [hpre, if_neg, writeNodes, writeNodes_append, hnode, hrest, writeNode,
          List.append_assoc, List.nil_append, List.append_nil, not_false_iff]
        rw [hsse] at hnode ⊢
        rw [extract_append (show start ≤ b + 1 by omega) (show b + 1 ≤ endIdx by omega)]


/-- C1: Round-trip identity. -/
theorem C1_round_trip (src : List Nat) : (Parse src).map File.Bytes = some src := by
  have h : writeNodes (parseRangeF (src.length + 1) src 0 src.length) = src := by
    rw [parseRangeF_bytes (src.length + 1) src 0 src.length (le_refl _) (by omega)]
    simp [extract]
  simp [Parse, File.Bytes, h]


set_option maxHeartbeats 1600000 in
/-- C10: the depth counter never becomes negative (preserved by every
shared scan step, hence by both `parseRange`'s and `buildStmt`'s scans,
which start at depth 0), and a `}` in Normal context at depth 0 leaves the
depth at 0. -/
theorem C10_depth_invariant :
    (∀ (src : List Nat) (e i : Nat) (st : ScanState),
       0 ≤ st.depth → 0 ≤ (scanStep src e i st).2.depth) ∧
    (∀ (src : List Nat) (e i : Nat) (st : ScanState),
       st.inLine = false → st.inSlashStar = false → st.inString = false →
       st.depth = 0 → byteAt src i = 125 → (scanStep src e i st).2.depth = 0) := by
  constructor
  · intro src e i st h
    unfold scanStep
    dsimp only
    split_ifs <;> simp <;> omega
  · intro src e i st h1 h2 h3 h4 h5
    simp [scanStep, h1, h2, h3, h4, h5]

theorem C10_witness :
    (0 : Int) ≤ (scanStep [125] 1 0 ⟨0, false, false, false⟩).2.depth ∧
    (scanStep [125] 1 0 ⟨0, false, false, false⟩).2.depth = 0 :=
  ⟨C10_depth_invariant.1 [125] 1 0 ⟨0, false, false, false⟩ (by decide),
   C10_depth_invariant.2 [125] 1 0 ⟨0, false, false, false⟩ rfl rfl rfl rfl rfl⟩

set_option maxHeartbeats 1600000 in
/-- C2: inside a string, line comment or block comment a scan step
never changes the brace depth and never flags a statement boundary; and
the example `zone "a{b" { };` parses to a single block statement with
head `zone "a{b" `. -/
theorem C2_braces_in_strings_comments :
    (∀ (src : List Nat) (e i : Nat) (st : ScanState),
       st.inString = true ∨ st.inLine = true ∨ st.inSlashStar = true →
       (scanStep src e i st).2.depth = st.depth ∧ isBoundary src i st = false) ∧
    Parse (strBytes "zone \"a\x7bb\" \x7b \x7d;") =
      some ⟨[Node.stmt
        { RawText := strBytes "zone \"a\x7bb\" \x7b \x7d;", startI := 0, endI := 15,
          Keyword := strBytes "zone", HeadRaw := strBytes "zone \"a\x7bb\" ",
          HasBlock := true, LBraceRaw := strBytes "\x7b ", Body := [],
          RBraceRaw := strBytes "\x7d", TrailingAfterR := [], Modified := false }]⟩ := by
  constructor
  · intro src e i st h
    constructor
    · unfold scanStep
      dsimp only
      rcases h with h | h | h <;> simp [h] <;> split_ifs <;> simp
    · rcases h with h | h | h <;> simp [isBoundary, h]
  · rfl

theorem C2_witness :
    (scanStep [123] 1 0 ⟨7, false, false, true⟩).2.depth = 7 ∧
    isBoundary [123] 0 ⟨7, false, false, true⟩ = false :=
  C2_braces_in_strings_comments.1 [123] 1 0 ⟨7, false, false, true⟩ (Or.inl rfl)


theorem lastIndexByte_none_iff (c : Nat) : ∀ l : List Nat, lastIndexByte l c = none ↔ c ∉ l := by
  intro l
  induction l with
  | nil => simp [lastIndexByte]
  | cons b rest ih =>
    simp only [lastIndexByte, List.mem_cons]
    cases h : lastIndexByte rest c with
    | some j =>
      have hc : c ∈ rest := by
        by_contra hcn
        rw [← ih] at hcn
        simp [h] at hcn
      simp [hc]
    | none =>
      have hr : c ∉ rest := ih.mp h
      by_cases hb : b = c
      · simp [hb]
      · have hb2 : ¬c = b := fun e => hb e.symm
        simp [hb, hb2, hr]

theorem buildStmtCore_isSome {src : List Nat} {a b semi : Nat}
    (h : lastIndexByte (extract src a b) 59 = some semi) :
    (buildStmtCore src a b).isSome = true := by
  unfold buildStmtCore
  dsimp only
  simp only [h]
  split
  · split <;> simp
  · simp

theorem buildStmtCore_none_iff (src : List Nat) (a b : Nat) :
    buildStmtCore src a b = none ↔ lastIndexByte (extract src a b) 59 = none := by
  cases h : lastIndexByte (extract src a b) 59 with
  | none =>
    simp only [h, iff_true]
    unfold buildStmtCore
    dsimp only
    simp only [h]
  | some semi =>
    have := buildStmtCore_isSome h
    constructor
    · intro hh; rw [hh] at this; simp at this
    · intro hh; simp at hh

/-- C6: `buildStmt` fails exactly when its segment contains no
semicolon byte (Go's only error return, `"statement missing semicolon"`),
and succeeds whenever one is present. -/
theorem C6_missing_terminator (fuel : Nat) (src : List Nat) (a b : Nat) :
    buildStmt fuel src a b = none ↔ 59 ∉ extract src a b := by
  rw [← lastIndexByte_none_iff, ← buildStmtCore_none_iff]
  unfold buildStmt
  cases h : buildStmtCore src a b <;> simp [h]

/-- One boundary step of `parseRange` in terms of `parseStmtNode`. -/
theorem parseRangeF_cons_eq (fuel : Nat) (src : List Nat) (start endIdx b : Nat)
    (hscan : scanNext src endIdx start ScanState.init = some b) :
    parseRangeF (fuel + 1) src start endIdx =
      (if start < findStmtStart src start b then
        [Node.raw (extract src start (findStmtStart src start b)) start
          (findStmtStart src start b)]
      else []) ++
        parseStmtNode fuel src (findStmtStart src start b) (b + 1) ::
          parseRangeF fuel src (b + 1) endIdx := by
  rw [parseRangeF]
  simp only [hscan]
  congr 1
  congr 1
  unfold parseStmtNode buildStmt
  cases h : buildStmtCore src (findStmtStart src start b) (b + 1) <;> simp [h]

/-- C3: `Parse` is total (the error is always `nil`), and a decomposer
failure on a statement segment is absorbed as a `Raw` node over exactly
the segment's bytes — `parseStmtNode` being the absorption point used by
`parseRange` at every boundary (third conjunct). -/
theorem C3_parse_totality :
    (∀ src : List Nat, ∃ f : File, Parse src = some f) ∧
    (∀ (fuel : Nat) (src : List Nat) (a b : Nat),
       buildStmt fuel src a b = none →
       parseStmtNode fuel src a b = Node.raw (extract src a b) a b) ∧
    (∀ (fuel : Nat) (src : List Nat) (start endIdx b : Nat),
       scanNext src endIdx start ScanState.init = some b →
       parseRangeF (fuel + 1) src start endIdx =
         (if start < findStmtStart src start b then
           [Node.raw (extract src start (findStmtStart src start b)) start
             (findStmtStart src start b)]
         else []) ++
           parseStmtNode fuel src (findStmtStart src start b) (b + 1) ::
             parseRangeF fuel src (b + 1) endIdx) := by
  refine ⟨fun src => ⟨_, rfl⟩, ?_, parseRangeF_cons_eq⟩
  intro fuel src a b h
  unfold parseStmtNode
  rw [h]

theorem C3_witness :
    parseStmtNode 1 (strBytes "x") 0 1 = Node.raw (strBytes "x") 0 1 ∧
    parseRangeF 2 (strBytes "a;") 0 2 =
      (if 0 < findStmtStart (strBytes "a;") 0 1 then
        [Node.raw (extract (strBytes "a;") 0 (findStmtStart (strBytes "a;") 0 1)) 0
          (findStmtStart (strBytes "a;") 0 1)]
      else []) ++
        parseStmtNode 1 (strBytes "a;") (findStmtStart (strBytes "a;") 0 1) 2 ::
          parseRangeF 1 (strBytes "a;") 2 2 :=
  ⟨by
    have h := C3_parse_totality.2.1 1 (strBytes "x") 0 1 (by rfl)
    simpa using h,
   C3_parse_totality.2.2 1 (strBytes "a;") 0 2 1 (by rfl)⟩

/-- C9: every statement `buildStmt` produces has
`Keyword = keywordOf HeadRaw` — the lowercased, quote-stripped first
identifier-like token after skipping leading whitespace and `//`, `/* */`,
`#` comments — and the claim's three concrete cases hold. -/
theorem C9_keyword_extraction :
    (∀ (fuel : Nat) (src : List Nat) (a b : Nat) (st : Stmt),
       buildStmt fuel src a b = some st → st.Keyword = keywordOf st.HeadRaw) ∧
    keywordOf (strBytes "  OPTIONS") = strBytes "options" ∧
    keywordOf (strBytes "\"view\" myview") = strBytes "view" ∧
    Parse (strBytes ";") =
      some ⟨[Node.stmt
        { RawText := [59], startI := 0, endI := 1, Keyword := [], HeadRaw := [],
          HasBlock := false, LBraceRaw := [], Body := [], RBraceRaw := [],
          TrailingAfterR := [], Modified := false }]⟩ := by
  refine ⟨?_, by rfl, by rfl, by rfl⟩
  intro fuel src a b st h
  unfold buildStmt at h
  cases hc : buildStmtCore src a b with
  | none => rw [hc] at h; simp [Option.map] at h
  | some core =>
    rw [hc] at h
    simp only [Option.map] at h
    cases h
    exact (buildStmtCore_some hc).2

theorem C9_witness :
    (mkStmt (simpleStmtCore (strBytes "zone x;") 0 6) []).Keyword =
      keywordOf (mkStmt (simpleStmtCore (strBytes "zone x;") 0 6) []).HeadRaw :=
  C9_keyword_extraction.1 7 (strBytes "zone x;") 0 7
    (mkStmt (simpleStmtCore (strBytes "zone x;") 0 6) []) (by rfl)


/-- C7 counterexample: an unmodified statement whose output is not its
`RawText` (the claim omits the writer's `RawText != ""` guard). -/
theorem C7_counterexample :
    writeStmt C7stmt ≠ C7stmt.RawText ∧ writeStmt C7stmt = [120, 59] := by
  constructor
  · intro h
    have : ([120, 59] : List Nat) = [] := h
    simp at this
  · rfl

/-- C7 amended: for every `Stmt` with `Modified = false` *and
non-empty `RawText`*, `writeTo` emits exactly `RawText`, regardless of the
structured fields. -/
theorem C7_unmodified_verbatim (s : Stmt) (h1 : s.Modified = false) (h2 : s.RawText ≠ []) :
    writeStmt s = s.RawText :=
  writeStmt_unmodified h1 h2

theorem C7_witness :
    writeStmt
      { RawText := [122, 59], startI := 0, endI := 2, Keyword := [122], HeadRaw := [122],
        HasBlock := false, LBraceRaw := [], Body := [], RBraceRaw := [],
        TrailingAfterR := [], Modified := false } = [122, 59] :=
  C7_unmodified_verbatim
    { RawText := [122, 59], startI := 0, endI := 2, Keyword := [122], HeadRaw := [122],
      HasBlock := false, LBraceRaw := [], Body := [], RBraceRaw := [],
      TrailingAfterR := [], Modified := false } rfl (by decide)

/-- C8: `AppendToBody` on a non-block statement upgrades it in place —
`HasBlock := true`, prior body and trailing text discarded, default brace
spacing, the node appended, `Modified` set — and the claim's concrete
example `recursion no;` serializes as
`recursion no {\n  <appended-content>\n};`. -/
theorem C8_block_upgrade :
    (∀ (s : Stmt) (n : Node), s.HasBlock = false →
       AppendToBody s n =
         { s with HasBlock := true, LBraceRaw := [32, 123], RBraceRaw := [125],
                  TrailingAfterR := [], Body := [n], Modified := true }) ∧
    Parse (strBytes "recursion no;") =
      some ⟨[Node.stmt C8stmt]⟩ ∧
    writeStmt (AppendToBody C8stmt
        (Node.stmt (NewSimpleStmt (strBytes "allow x")))) =
      strBytes "recursion no \x7b\n  allow x;\n\x7d;" := by
  refine ⟨?_, by rfl, by rfl⟩
  intro s n h
  simp [AppendToBody, h]

theorem C8_witness :
    AppendToBody C8stmt (Node.raw [97] 0 1) =
      { C8stmt with
          HasBlock := true, LBraceRaw := [32, 123], RBraceRaw := [125],
          TrailingAfterR := [], Body := [Node.raw [97] 0 1], Modified := true } :=
  C8_block_upgrade.1 C8stmt (Node.raw [97] 0 1) rfl


theorem findStmtStartF_spaces :
    ∀ fuel (src : List Nat) (i pos j : Nat), i ≤ j → j < findStmtStartF fuel src i pos →
      isSpace (byteAt src j) = true := by
  intro fuel
  induction fuel with
  | zero =>
    intro src i pos j h1 h2
    simp only [findStmtStartF] at h2
    omega
  | succ f ih =>
    intro src i pos j h1 h2
    unfold findStmtStartF at h2
    split at h2
    · rename_i hcond
      by_cases hj : j = i
      · subst hj; exact hcond.2
      · exact ih src (i + 1) pos j (by omega) h2
    · omega

theorem findStmtStartF_stop :
    ∀ fuel (src : List Nat) (i pos : Nat), pos - i ≤ fuel →
      findStmtStartF fuel src i pos < pos →
      isSpace (byteAt src (findStmtStartF fuel src i pos)) = false := by
  intro fuel
  induction fuel with
  | zero =>
    intro src i pos hf h2
    simp only [findStmtStartF] at h2 ⊢
    exact absurd h2 (by omega)
  | succ f ih =>
    intro src i pos hf h2
    unfold findStmtStartF at h2 ⊢
    by_cases hcond : i < pos ∧ isSpace (byteAt src i) = true
    · rw [if_pos hcond] at h2 ⊢
      exact ih src (i + 1) pos (by omega) h2
    · rw [if_neg hcond] at h2 ⊢
      cases hx : isSpace (byteAt src i) with
      | false => rfl
      | true => exact absurd ⟨h2, hx⟩ hcond


/-- C4 counterexample: in `a; # c\nb;` the comment `# c` sits between
the first statement and `b;`; the skip past whitespace stops at `#`, so
the comment lands *inside* the second statement's byte range `[3, 9)`
(its `RawText` starts with the comment), while the preceding `Raw` trivia
node holds only the space — contradicting the claim that a comment
immediately preceding a statement stays in the `Raw` trivia. -/
theorem C4_counterexample :
    Parse (strBytes "a; # c\nb;") =
      some ⟨[Node.stmt
        { RawText := strBytes "a;", startI := 0, endI := 2, Keyword := [97],
          HeadRaw := [97], HasBlock := false, LBraceRaw := [], Body := [],
          RBraceRaw := [], TrailingAfterR := [], Modified := false },
        Node.raw [32] 2 3,
        Node.stmt
        { RawText := strBytes "# c\nb;", startI := 3, endI := 9, Keyword := [98],
          HeadRaw := strBytes "# c\nb", HasBlock := false, LBraceRaw := [], Body := [],
          RBraceRaw := [], TrailingAfterR := [], Modified := false }]⟩ ∧
    (extract (strBytes "a; # c\nb;") 3 9).take 3 = strBytes "# c" := by
  constructor
  · rfl
  · rfl

/-- C4 amended: the statement start is found by skipping forward from
the end of the previous statement past *whitespace only* (`findStmtStart`
skips exactly the `isSpace` bytes and stops at the first non-space byte),
so whitespace before a statement stays in the preceding `Raw` trivia, but
a comment immediately preceding a statement is *absorbed into* the
statement's byte range (the skip stops at its first delimiter byte).
The final conjunct exhibits the emitted node shapes at a boundary. -/
theorem C4_trivia_attribution :
    (∀ (src : List Nat) (last pos : Nat), last ≤ findStmtStart src last pos) ∧
    (∀ (src : List Nat) (last pos : Nat), last ≤ pos → findStmtStart src last pos ≤ pos) ∧
    (∀ (src : List Nat) (last pos j : Nat), last ≤ j → j < findStmtStart src last pos →
       isSpace (byteAt src j) = true) ∧
    (∀ (src : List Nat) (last pos : Nat), findStmtStart src last pos < pos →
       isSpace (byteAt src (findStmtStart src last pos)) = false) ∧
    (∀ (fuel : Nat) (src : List Nat) (start endIdx b : Nat),
       scanNext src endIdx start ScanState.init = some b →
       parseRangeF (fuel + 1) src start endIdx =
         (if start < findStmtStart src start b then
           [Node.raw (extract src start (findStmtStart src start b)) start
             (findStmtStart src start b)]
         else []) ++
           parseStmtNode fuel src (findStmtStart src start b) (b + 1) ::
             parseRangeF fuel src (b + 1) endIdx) :=
  ⟨findStmtStart_ge,
   findStmtStart_le,
   fun src last pos j h1 h2 => findStmtStartF_spaces _ src last pos j h1 h2,
   fun src last pos h => findStmtStartF_stop _ src last pos (le_refl _) h,
   parseRangeF_cons_eq⟩

theorem C4_witness :
    isSpace (byteAt (strBytes " a;") 0) = true ∧
    isSpace (byteAt (strBytes " a;") (findStmtStart (strBytes " a;") 0 2)) = false ∧
    findStmtStart (strBytes " a;") 0 2 ≤ 2 :=
  ⟨C4_trivia_attribution.2.2.1 (strBytes " a;") 0 2 0 (le_refl 0) (by decide),
   C4_trivia_attribution.2.2.2.1 (strBytes " a;") 0 2 (by decide),
   C4_trivia_attribution.2.1 (strBytes " a;") 0 2 (by omega)⟩


theorem splitNL_no_nl : ∀ m : List Nat, 10 ∉ m → splitNL m = [m] := by
  intro m
  induction m with
  | nil => intro _; rfl
  | cons c rest ih =>
    intro h
    have hc : ¬c = 10 := fun e => h (by simp [e])
    have hr : 10 ∉ rest := fun hx => h (List.mem_cons_of_mem _ hx)
    unfold splitNL
    rw [if_neg hc, ih hr]

theorem splitNL_append : ∀ a b : List Nat, 10 ∉ a → splitNL (a ++ 10 :: b) = a :: splitNL b := by
  intro a
  induction a with
  | nil => intro b _; simp [splitNL]
  | cons c rest ih =>
    intro b h
    have hc : ¬c = 10 := fun e => h (by simp [e])
    have hr : 10 ∉ rest := fun hx => h (List.mem_cons_of_mem _ hx)
    simp only [List.cons_append, splitNL]
    rw [if_neg hc, List.append_eq, ih b hr]

theorem splitNL_mem_no_nl : ∀ bs l : List Nat, l ∈ splitNL bs → 10 ∉ l := by
  intro bs
  induction bs with
  | nil =>
    intro l h
    simp [splitNL] at h
    simp [h]
  | cons c rest ih =>
    intro l h
    unfold splitNL at h
    by_cases hc : c = 10
    · rw [if_pos hc] at h
      rcases List.mem_cons.mp h with h1 | h2
      · simp [h1]
      · exact ih l h2
    · rw [if_neg hc] at h
      cases hs : splitNL rest with
      | nil =>
        rw [hs] at h
        simp at h
        subst h
        simp
        exact fun e => hc e.symm
      | cons m ms =>
        rw [hs] at h
        rcases List.mem_cons.mp h with h1 | h2
        · subst h1
          intro hmem
          rcases List.mem_cons.mp hmem with e | e
          · exact hc e.symm
          · exact ih m (hs ▸ List.mem_cons_self m ms) e
        · exact ih l (hs ▸ List.mem_cons_of_mem m h2)

theorem indentJoin_lines :
    ∀ L : List (List Nat), (∀ m ∈ L, 10 ∉ m) →
      ∀ l ∈ splitNL (indentJoin L), l = [] ∨ l.take 2 = [32, 32] := by
  intro L
  induction L with
  | nil =>
    intro _ l h
    simp [indentJoin, splitNL] at h
    simp [h]
  | cons m ms ih =>
    intro hfree l hl
    cases ms with
    | nil =>
      by_cases hm : m.isEmpty
      · simp [indentJoin, hm, splitNL] at hl
        simp [hl]
      · have h10 : 10 ∉ m := hfree m (by simp)
        have heq : splitNL (indentJoin [m]) = [32 :: 32 :: m] := by
          have hj : indentJoin [m] = 32 :: 32 :: m := by simp [indentJoin, hm]
          rw [hj]
          exact splitNL_no_nl _ (by simp [h10])
        rw [heq] at hl
        simp at hl
        right
        simp [hl]
    | cons m2 ms2 =>
      have h10 : 10 ∉ m := hfree m (by simp)
      have heq : splitNL (indentJoin (m :: m2 :: ms2)) =
          (32 :: 32 :: m) :: splitNL (indentJoin (m2 :: ms2)) := by
        show splitNL (32 :: 32 :: (m ++ 10 :: indentJoin (m2 :: ms2))) = _
        have hx : (32 : Nat) :: 32 :: (m ++ 10 :: indentJoin (m2 :: ms2)) =
            (32 :: 32 :: m) ++ 10 :: indentJoin (m2 :: ms2) := by simp
        rw [hx, splitNL_append _ _ (by simp [h10])]
      rw [heq] at hl
      rcases List.mem_cons.mp hl with h1 | h2
      · right; simp [h1]
      · exact ih (fun x hx => hfree x (List.mem_cons_of_mem _ hx)) l h2

theorem indentLines_lines (bs l : List Nat) (h : l ∈ splitNL (indentLines bs)) :
    l = [] ∨ l.take 2 = [32, 32] :=
  indentJoin_lines (splitNL bs) (splitNL_mem_no_nl bs) l h

theorem pad_last (w : List Nat) : (10 :: (w ++ padNL w)).getLast? = some 10 := by
  unfold padNL
  cases h : w.getLast? with
  | none =>
    have hw : w = [] := List.getLast?_eq_none_iff.mp h
    subst hw
    rfl
  | some c =>
    dsimp only
    by_cases hc : c = 10
    · subst hc
      rw [if_pos rfl, List.append_nil]
      cases w with
      | nil => simp at h
      | cons x xs => rw [List.getLast?_cons_cons]; exact h
    · rw [if_neg hc]
      have hx : (10 : Nat) :: (w ++ [10]) = (10 :: w) ++ [10] := by simp
      rw [hx]
      exact List.getLast?_concat _


/-- C5 counterexample: for `HeadRaw = " "` (non-empty) the claim
prescribes emitting the right-trimmed `HeadRaw` (empty) before `" {"`,
i.e. `" {};"`; the code falls back to `Keyword` whenever the *trimmed*
head is empty and emits `"k {};"`. -/
theorem C5_counterexample :
    writeStmt C5stmt = [107, 32, 123, 125, 59] ∧
    writeStmt C5stmt ≠ [32, 123, 125, 59] := by
  constructor
  · rfl
  · intro h
    have hh : writeStmt C5stmt = [107, 32, 123, 125, 59] := rfl
    rw [hh] at h
    simp at h

/-- C5 amended: a modified block statement emits the right-trimmed
`HeadRaw` — or `Keyword` when the *right-trimmed* `HeadRaw` is empty —
then `" {"`; an empty body yields `"{};"` with no interior newline; a
non-empty body yields a newline, the body nodes serialized and indented
(`writeBody` = concatenation of `indentLines` of each node's output, and
every line `indentLines` produces is empty or starts with two spaces),
padding that guarantees the byte before `"};"` is a newline, then `"};"`. -/
theorem C5_regenerated_block (s : Stmt) (h1 : s.Modified = true) (h2 : s.HasBlock = true) :
    (s.Body = [] →
      writeStmt s =
        (if trimRightSpace s.HeadRaw = [] then s.Keyword else trimRightSpace s.HeadRaw) ++
          [32, 123, 125, 59]) ∧
    (s.Body ≠ [] →
      writeStmt s =
        (if trimRightSpace s.HeadRaw = [] then s.Keyword else trimRightSpace s.HeadRaw) ++
          [32, 123] ++ (10 :: (writeBody s.Body ++ padNL (writeBody s.Body))) ++ [125, 59]) ∧
    (∀ w : List Nat, (10 :: (w ++ padNL w)).getLast? = some 10) ∧
    (∀ bs l : List Nat, l ∈ splitNL (indentLines bs) → l = [] ∨ l.take 2 = [32, 32]) := by
  refine ⟨?_, ?_, pad_last, indentLines_lines⟩
  · intro h3
    simp [writeStmt, h1, h2, h3]
  · intro h3
    have hne : s.Body.isEmpty = false := by
      cases hb : s.Body with
      | nil => exact absurd hb h3
      | cons x xs => rfl
    simp [writeStmt, h1, h2, hne]

theorem C5_witness :
    writeStmt
      { RawText := [], startI := 0, endI := 0, Keyword := [107], HeadRaw := [32],
        HasBlock := true, LBraceRaw := [], Body := [Node.raw [97] 0 1], RBraceRaw := [],
        TrailingAfterR := [], Modified := true } =
      [107, 32, 123, 10, 32, 32, 97, 10, 125, 59] := by
  have h :=
    (C5_regenerated_block
      { RawText := [], startI := 0, endI := 0, Keyword := [107], HeadRaw := [32],
        HasBlock := true, LBraceRaw := [], Body := [Node.raw [97] 0 1], RBraceRaw := [],
        TrailingAfterR := [], Modified := true } rfl rfl).2.1 (by simp)
  rw [h]
  rfl

theorem C6_witness : buildStmt 1 (strBytes "x") 0 1 = none :=
  (C6_missing_terminator 1 (strBytes "x") 0 1).mpr (by decide)

end Namedconf
